import Mathlib

/-!
Verification of the AlphaRank metric scoring engine.

This file gives a shallow embedding, in Lean 4, of the numeric core of the
AlphaRank repository: the min-max standardizer, the weighting methods
(equal and entropy based), the strategy and portfolio score aggregators,
the dense ranking step of the orchestrator, and the calculation pipeline's
error policy.  Metric values are modelled as rationals (`ℚ`) except for the
entropy computation, which uses real numbers (`ℝ`) because it involves the
natural logarithm.  Python's float division by zero (which produces NaN or
raises) appears in the embedding as Lean's total division, where `x / 0 = 0`;
every theorem that touches a degenerate denominator states this explicitly.
-/

/-- Directionality tag of a metric, from `src/calculators/base.py`
(`MetricType.POSITIVE` is higher-is-better, `MetricType.NEGATIVE` is
lower-is-better). -/
inductive MetricType where
  | POSITIVE
  | NEGATIVE
deriving DecidableEq, Repr

/-- Minimum of a column, as polars' `pl.col(c).min()` over a materialized
column; `0` for an empty column (polars would give null there, a case the
standardizer never meets). -/
def colMin : List ℚ → ℚ
  | [] => 0
  | x :: xs => xs.foldl min x

/-- Maximum of a column, as polars' `pl.col(c).max()`. -/
def colMax : List ℚ → ℚ
  | [] => 0
  | x :: xs => xs.foldl max x

theorem foldl_min_le_init (xs : List ℚ) (a : ℚ) : xs.foldl min a ≤ a := by
  induction xs generalizing a with
  | nil => exact le_refl a
  | cons y ys ih =>
      calc (y :: ys).foldl min a = ys.foldl min (min a y) := rfl
        _ ≤ min a y := ih (min a y)
        _ ≤ a := min_le_left a y

theorem foldl_min_le_mem (xs : List ℚ) (a : ℚ) (y : ℚ) (hy : y ∈ xs) :
    xs.foldl min a ≤ y := by
  induction xs generalizing a with
  | nil => cases hy
  | cons z zs ih =>
      rcases List.mem_cons.mp hy with h | h
      · subst h
        calc (y :: zs).foldl min a = zs.foldl min (min a y) := rfl
          _ ≤ min a y := foldl_min_le_init zs (min a y)
          _ ≤ y := min_le_right a y
      · exact ih (min a z) h

theorem foldl_min_mem (xs : List ℚ) (a : ℚ) :
    xs.foldl min a = a ∨ xs.foldl min a ∈ xs := by
  induction xs generalizing a with
  | nil => exact Or.inl rfl
  | cons z zs ih =>
      rcases ih (min a z) with h | h
      · rcases min_cases a z with ⟨hmin, _⟩ | ⟨hmin, _⟩
        · exact Or.inl (by simpa [List.foldl, hmin] using h)
        · refine Or.inr ?_
          simp only [List.foldl] at *
          rw [h, hmin]
          exact List.mem_cons_self z zs
      · exact Or.inr (List.mem_cons_of_mem z h)

theorem init_le_foldl_max (xs : List ℚ) (a : ℚ) : a ≤ xs.foldl max a := by
  induction xs generalizing a with
  | nil => exact le_refl a
  | cons y ys ih =>
      calc a ≤ max a y := le_max_left a y
        _ ≤ ys.foldl max (max a y) := ih (max a y)
        _ = (y :: ys).foldl max a := rfl

theorem mem_le_foldl_max (xs : List ℚ) (a : ℚ) (y : ℚ) (hy : y ∈ xs) :
    y ≤ xs.foldl max a := by
  induction xs generalizing a with
  | nil => cases hy
  | cons z zs ih =>
      rcases List.mem_cons.mp hy with h | h
      · subst h
        calc y ≤ max a y := le_max_right a y
          _ ≤ zs.foldl max (max a y) := init_le_foldl_max zs (max a y)
          _ = (y :: zs).foldl max a := rfl
      · exact ih (max a z) h

theorem foldl_max_mem (xs : List ℚ) (a : ℚ) :
    xs.foldl max a = a ∨ xs.foldl max a ∈ xs := by
  induction xs generalizing a with
  | nil => exact Or.inl rfl
  | cons z zs ih =>
      rcases ih (max a z) with h | h
      · rcases max_cases a z with ⟨hmax, _⟩ | ⟨hmax, _⟩
        · exact Or.inl (by simpa [List.foldl, hmax] using h)
        · refine Or.inr ?_
          simp only [List.foldl] at *
          rw [h, hmax]
          exact List.mem_cons_self z zs
      · exact Or.inr (List.mem_cons_of_mem z h)

theorem colMin_le_mem (c : List ℚ) (x : ℚ) (hx : x ∈ c) : colMin c ≤ x := by
  cases c with
  | nil => cases hx
  | cons y ys =>
      rcases List.mem_cons.mp hx with h | h
      · subst h
        exact foldl_min_le_init ys x
      · exact foldl_min_le_mem ys y x h

theorem mem_le_colMax (c : List ℚ) (x : ℚ) (hx : x ∈ c) : x ≤ colMax c := by
  cases c with
  | nil => cases hx
  | cons y ys =>
      rcases List.mem_cons.mp hx with h | h
      · subst h
        exact init_le_foldl_max ys x
      · exact mem_le_foldl_max ys y x h

theorem colMin_mem (c : List ℚ) (hc : c ≠ []) : colMin c ∈ c := by
  cases c with
  | nil => exact absurd rfl hc
  | cons y ys =>
      rcases foldl_min_mem ys y with h | h
      · rw [colMin, h]
        exact List.mem_cons_self y ys
      · exact List.mem_cons_of_mem y h

theorem colMax_mem (c : List ℚ) (hc : c ≠ []) : colMax c ∈ c := by
  cases c with
  | nil => exact absurd rfl hc
  | cons y ys =>
      rcases foldl_max_mem ys y with h | h
      · rw [colMax, h]
        exact List.mem_cons_self y ys
      · exact List.mem_cons_of_mem y h

/-- Embedding of `MinMaxStandardizer._positive_standardize`
(`src/standardizers/impl/non_parametric.py`): the polars expression
`(col - col.min()) / (col.max() - col.min())`, read at one cell `x` of the
column `c`. -/
def MinMaxStandardizer.positive_standardize (c : List ℚ) (x : ℚ) : ℚ :=
  (x - colMin c) / (colMax c - colMin c)

/-- Embedding of `MinMaxStandardizer._negative_standardize`:
`(col.max() - col) / (col.max() - col.min())`. -/
def MinMaxStandardizer.negative_standardize (c : List ℚ) (x : ℚ) : ℚ :=
  (colMax c - x) / (colMax c - colMin c)

/-- One column of `MinMaxStandardizer.standardize`: the with_columns
replacement applies the direction-appropriate expression to every cell. -/
def MinMaxStandardizer.standardize_column : MetricType → List ℚ → List ℚ
  | .POSITIVE, c => c.map (MinMaxStandardizer.positive_standardize c)
  | .NEGATIVE, c => c.map (MinMaxStandardizer.negative_standardize c)

/-- Embedding of `MinMaxStandardizer.standardize`: iterate over the
`metric_types` dictionary and replace each named metric column by its
standardized version (all other columns are untouched). -/
def MinMaxStandardizer.standardize (table : List (String × List ℚ))
    (metric_types : List (String × MetricType)) : List (String × List ℚ) :=
  metric_types.foldl
    (fun acc mt =>
      acc.map (fun col =>
        if col.1 == mt.1 then (col.1, MinMaxStandardizer.standardize_column mt.2 col.2)
        else col))
    table

/-- C1: for a non-degenerate metric column (max > min), min-max
standardization maps each value `x` of a `HigherIsBetter` (POSITIVE) metric
to `(x - min) / (max - min)` and each value of a `LowerIsBetter` (NEGATIVE)
metric to `(max - x) / (max - min)`; every standardized value lies in
`[0, 1]`, and for a NEGATIVE metric the minimum raw value standardizes to 1
and the maximum raw value standardizes to 0. -/
theorem minmax_standardization_correct (c : List ℚ) (h : colMin c < colMax c) :
    (∀ x ∈ c,
      MinMaxStandardizer.positive_standardize c x = (x - colMin c) / (colMax c - colMin c) ∧
      MinMaxStandardizer.negative_standardize c x = (colMax c - x) / (colMax c - colMin c) ∧
      0 ≤ MinMaxStandardizer.positive_standardize c x ∧
      MinMaxStandardizer.positive_standardize c x ≤ 1 ∧
      0 ≤ MinMaxStandardizer.negative_standardize c x ∧
      MinMaxStandardizer.negative_standardize c x ≤ 1) ∧
    MinMaxStandardizer.standardize_column .POSITIVE c
      = c.map (fun x => (x - colMin c) / (colMax c - colMin c)) ∧
    MinMaxStandardizer.standardize_column .NEGATIVE c
      = c.map (fun x => (colMax c - x) / (colMax c - colMin c)) ∧
    MinMaxStandardizer.negative_standardize c (colMin c) = 1 ∧
    MinMaxStandardizer.negative_standardize c (colMax c) = 0 ∧
    colMin c ∈ c ∧ colMax c ∈ c := by
  have hd : 0 < colMax c - colMin c := sub_pos.mpr h
  have hne : c ≠ [] := by
    intro hnil
    rw [hnil] at h
    exact lt_irrefl _ h
  refine ⟨?_, rfl, rfl, ?_, ?_, colMin_mem c hne, colMax_mem c hne⟩
  · intro x hx
    have hxmin : colMin c ≤ x := colMin_le_mem c x hx
    have hxmax : x ≤ colMax c := mem_le_colMax c x hx
    refine ⟨rfl, rfl, ?_, ?_, ?_, ?_⟩
    · exact div_nonneg (sub_nonneg.mpr hxmin) hd.le
    · rw [MinMaxStandardizer.positive_standardize, div_le_one hd]
      exact sub_le_sub_right hxmax (colMin c)
    · exact div_nonneg (sub_nonneg.mpr hxmax) hd.le
    · rw [MinMaxStandardizer.negative_standardize, div_le_one hd]
      exact sub_le_sub_left hxmin (colMax c)
  · rw [MinMaxStandardizer.negative_standardize]
    exact div_self (ne_of_gt hd)
  · rw [MinMaxStandardizer.negative_standardize, sub_self, zero_div]

/-- Concrete instantiation of `minmax_standardization_correct` on the
column `[1, 3]`. -/
theorem minmax_standardization_correct_witness :
    colMin [1, 3] < colMax [1, 3] ∧
    ((∀ x ∈ ([1, 3] : List ℚ),
      MinMaxStandardizer.positive_standardize [1, 3] x
        = (x - colMin [1, 3]) / (colMax [1, 3] - colMin [1, 3]) ∧
      MinMaxStandardizer.negative_standardize [1, 3] x
        = (colMax [1, 3] - x) / (colMax [1, 3] - colMin [1, 3]) ∧
      0 ≤ MinMaxStandardizer.positive_standardize [1, 3] x ∧
      MinMaxStandardizer.positive_standardize [1, 3] x ≤ 1 ∧
      0 ≤ MinMaxStandardizer.negative_standardize [1, 3] x ∧
      MinMaxStandardizer.negative_standardize [1, 3] x ≤ 1) ∧
    MinMaxStandardizer.standardize_column .POSITIVE [1, 3]
      = ([1, 3] : List ℚ).map (fun x => (x - colMin [1, 3]) / (colMax [1, 3] - colMin [1, 3])) ∧
    MinMaxStandardizer.standardize_column .NEGATIVE [1, 3]
      = ([1, 3] : List ℚ).map (fun x => (colMax [1, 3] - x) / (colMax [1, 3] - colMin [1, 3])) ∧
    MinMaxStandardizer.negative_standardize [1, 3] (colMin [1, 3]) = 1 ∧
    MinMaxStandardizer.negative_standardize [1, 3] (colMax [1, 3]) = 0 ∧
    colMin [1, 3] ∈ ([1, 3] : List ℚ) ∧ colMax [1, 3] ∈ ([1, 3] : List ℚ)) :=
  ⟨by decide, minmax_standardization_correct [1, 3] (by decide)⟩

/-- C2: the code has no degenerate-column fallback at all.  On a column
whose values are all equal (here `[2, 2]`) it evaluates
`(x - min) / (max - min)` with denominator `max - min = 0`; in exact
arithmetic (Lean's total division) this yields `0`, and in the floating
point of the running program it is `0.0 / 0.0 = NaN`.  Either way no cell
of the output equals the `0.5` neutral midpoint the specification
mandates. -/
theorem minmax_degenerate_no_midpoint :
    MinMaxStandardizer.standardize_column .POSITIVE [2, 2] = [0, 0] ∧
    MinMaxStandardizer.standardize_column .NEGATIVE [2, 2] = [0, 0] ∧
    ∀ y ∈ MinMaxStandardizer.standardize_column .POSITIVE [2, 2], y ≠ (1 : ℚ) / 2 := by
  have hmin : colMin [2, 2] = 2 := by simp [colMin]
  have hmax : colMax [2, 2] = 2 := by simp [colMax]
  refine ⟨?_, ?_, ?_⟩ <;>
    simp [MinMaxStandardizer.standardize_column, MinMaxStandardizer.positive_standardize,
      MinMaxStandardizer.negative_standardize, hmin, hmax, sub_self, zero_div]

/-- One row of a standardized metric table: the grouping keys `PM_ID` and
`Strategy_ID` plus the named metric cells. -/
structure Row where
  pm : ℕ
  strategy : ℕ
  vals : List (String × ℚ)
deriving DecidableEq, Repr

/-- A metric table: the frame's column schema plus its rows. -/
structure Table where
  cols : List String
  rows : List Row
deriving DecidableEq, Repr

/-- Python's `dict.get(key, 0.0)`: the value stored under `k`, defaulting
to `0`. -/
def getD (m : List (String × ℚ)) (k : String) : ℚ :=
  match m.find? (fun p => p.1 == k) with
  | some p => p.2
  | none => 0

/-- Embedding of `WeightedSumScoreAggregator._aggregate`
(`src/metrics/strategy_aggregator/strategy.py`): per row, the expression
`sum(pl.col(col).mul(weights.get(col, 0.0)) for col in metric_columns)`
aliased `Strategy_Score`; the row is kept and the score appended. -/
def WeightedSumScoreAggregator.aggregate_impl (t : Table) (metric_columns : List String)
    (weights : List (String × ℚ)) : List (Row × ℚ) :=
  t.rows.map (fun r => (r, (metric_columns.map (fun c => getD r.vals c * getD weights c)).sum))

/-- Embedding of `StrategyScoreAggregator._check_weights`
(`src/metrics/strategy_aggregator/base.py`): returns the error message the
method raises as a `ValueError`, or `none` when the weights pass.  The four
checks run in source order: empty dict, key-set mismatch, sum outside
`[0.99, 1.01]`, negative weight. -/
def StrategyScoreAggregator.check_weights (weights : List (String × ℚ))
    (metric_columns : List String) : Option String :=
  if weights = [] then some "Weights dictionary cannot be empty"
  else if (weights.map Prod.fst).toFinset ≠ metric_columns.toFinset then
    some "Weights keys must match metric columns exactly"
  else if ¬((99 : ℚ) / 100 ≤ (weights.map Prod.snd).sum ∧
      (weights.map Prod.snd).sum ≤ (101 : ℚ) / 100) then
    some "Weights must sum up to 1"
  else if weights.any (fun p => decide (p.2 < 0)) then some "All weights must be positive"
  else none

/-- Embedding of `StrategyScoreAggregator._validate_input`: raises when a
requested metric column is missing from the frame schema. -/
def StrategyScoreAggregator.validate_input (t : Table) (metric_columns : List String) :
    Option String :=
  if metric_columns.filter (fun c => ¬ t.cols.contains c) ≠ [] then
    some "Missing columns in data"
  else none

/-- Embedding of the public `StrategyScoreAggregator.aggregate`: validate
the input schema, validate the weights, then run the weighted-sum
aggregation. -/
def StrategyScoreAggregator.aggregate (t : Table) (metric_columns : List String)
    (weights : List (String × ℚ)) : Except String (List (Row × ℚ)) :=
  match StrategyScoreAggregator.validate_input t metric_columns with
  | some e => .error e
  | none =>
    match StrategyScoreAggregator.check_weights weights metric_columns with
    | some e => .error e
    | none => .ok (WeightedSumScoreAggregator.aggregate_impl t metric_columns weights)

/-- Embedding of `PMScoreAggregator.aggregate`
(`src/metrics/portfolio_aggregator/portfolio.py`): group the scored rows by
`PM_ID` and take the mean of `Strategy_Score` per manager.  The trailing
`.sort("PM_Score")` of the source only reorders the output rows and is not
modelled; all statements below are order-insensitive (membership). -/
def PMScoreAggregator.aggregate (scored : List (Row × ℚ)) : List (ℕ × ℚ) :=
  ((scored.map (fun r => r.1.pm)).dedup).map (fun p =>
    (p, ((scored.filter (fun r => r.1.pm == p)).map Prod.snd).sum
      / ((scored.filter (fun r => r.1.pm == p)).length : ℚ)))

/-- C3: the strategy aggregator scores each row with
`StrategyScore = Σ_m weight[m] * standardized[m]` over the listed metrics,
and the portfolio aggregator assigns each `PM_ID` the arithmetic mean of
`StrategyScore` over that manager's strategy rows. -/
theorem strategy_and_portfolio_aggregation (t : Table) (mcols : List String)
    (w : List (String × ℚ)) (p : ℕ)
    (hp : p ∈ (WeightedSumScoreAggregator.aggregate_impl t mcols w).map (fun r => r.1.pm)) :
    (∀ r ∈ WeightedSumScoreAggregator.aggregate_impl t mcols w,
        r.2 = (mcols.map (fun c => getD r.1.vals c * getD w c)).sum) ∧
    (p, (((WeightedSumScoreAggregator.aggregate_impl t mcols w).filter
            (fun r => r.1.pm == p)).map Prod.snd).sum
        / (((WeightedSumScoreAggregator.aggregate_impl t mcols w).filter
            (fun r => r.1.pm == p)).length : ℚ))
      ∈ PMScoreAggregator.aggregate (WeightedSumScoreAggregator.aggregate_impl t mcols w) := by
  constructor
  · intro r hr
    rcases List.mem_map.mp hr with ⟨row, _, hrow⟩
    rw [← hrow]
  · refine List.mem_map.mpr ⟨p, List.mem_dedup.mpr hp, rfl⟩

/-- Concrete instantiation of `strategy_and_portfolio_aggregation`: one
manager with two strategies. -/
theorem strategy_and_portfolio_aggregation_witness :
    (1 ∈ (WeightedSumScoreAggregator.aggregate_impl
        ⟨["m"], [⟨1, 1, [("m", 2)]⟩, ⟨1, 2, [("m", 4)]⟩]⟩ ["m"] [("m", 1)]).map
        (fun r => r.1.pm)) ∧
    ((∀ r ∈ WeightedSumScoreAggregator.aggregate_impl
        ⟨["m"], [⟨1, 1, [("m", 2)]⟩, ⟨1, 2, [("m", 4)]⟩]⟩ ["m"] [("m", 1)],
        r.2 = (["m"].map (fun c => getD r.1.vals c * getD [("m", 1)] c)).sum) ∧
    (1, (((WeightedSumScoreAggregator.aggregate_impl
            ⟨["m"], [⟨1, 1, [("m", 2)]⟩, ⟨1, 2, [("m", 4)]⟩]⟩ ["m"] [("m", 1)]).filter
            (fun r => r.1.pm == 1)).map Prod.snd).sum
        / (((WeightedSumScoreAggregator.aggregate_impl
            ⟨["m"], [⟨1, 1, [("m", 2)]⟩, ⟨1, 2, [("m", 4)]⟩]⟩ ["m"] [("m", 1)]).filter
            (fun r => r.1.pm == 1)).length : ℚ))
      ∈ PMScoreAggregator.aggregate (WeightedSumScoreAggregator.aggregate_impl
            ⟨["m"], [⟨1, 1, [("m", 2)]⟩, ⟨1, 2, [("m", 4)]⟩]⟩ ["m"] [("m", 1)])) :=
  ⟨by simp [WeightedSumScoreAggregator.aggregate_impl],
    strategy_and_portfolio_aggregation _ _ _ 1
      (by simp [WeightedSumScoreAggregator.aggregate_impl])⟩

theorem check_weights_none_iff (w : List (String × ℚ)) (mcols : List String) :
    StrategyScoreAggregator.check_weights w mcols = none ↔
      (w ≠ [] ∧ (w.map Prod.fst).toFinset = mcols.toFinset ∧
        ((99 : ℚ) / 100 ≤ (w.map Prod.snd).sum ∧ (w.map Prod.snd).sum ≤ (101 : ℚ) / 100) ∧
        ∀ pr ∈ w, 0 ≤ pr.2) := by
  by_cases h1 : w = []
  · simp [StrategyScoreAggregator.check_weights, h1]
  · by_cases h2 : (w.map Prod.fst).toFinset = mcols.toFinset
    · by_cases h3 : ((99 : ℚ) / 100 ≤ (w.map Prod.snd).sum ∧
        (w.map Prod.snd).sum ≤ (101 : ℚ) / 100)
      · by_cases h4 : ∃ pr ∈ w, pr.2 < 0
        · obtain ⟨pr, hpr, hneg⟩ := h4
          have hany : w.any (fun p => decide (p.2 < 0)) = true :=
            List.any_eq_true.mpr ⟨pr, hpr, decide_eq_true hneg⟩
          refine iff_of_false ?_ ?_
          · simp [StrategyScoreAggregator.check_weights, h1, h2, h3, hany]
          · rintro ⟨-, -, -, hall⟩
            exact absurd (hall pr hpr) (not_le.mpr hneg)
        · have hany : w.any (fun p => decide (p.2 < 0)) = false := by
            by_contra hc
            rcases List.any_eq_true.mp (Bool.of_not_eq_false hc) with ⟨pr, hpr, hneg⟩
            exact h4 ⟨pr, hpr, of_decide_eq_true hneg⟩
          refine iff_of_true ?_ ⟨h1, h2, h3, ?_⟩
          · simp [StrategyScoreAggregator.check_weights, h1, h2, h3, hany]
          · intro pr hpr
            by_contra hneg
            exact h4 ⟨pr, hpr, not_le.mp hneg⟩
      · refine iff_of_false ?_ ?_
        · simp [StrategyScoreAggregator.check_weights, h1, h2, h3]
        · rintro ⟨-, -, hsum, -⟩
          exact h3 hsum
    · refine iff_of_false ?_ ?_
      · simp [StrategyScoreAggregator.check_weights, h1, h2]
      · rintro ⟨-, hkeys, -, -⟩
        exact h2 hkeys

/-- C5: when every requested metric column exists in the data, the public
`aggregate` raises a weight-validation error exactly when the weight map is
empty, its key set differs from the metric-column set, its values sum
outside `[0.99, 1.01]`, or some weight is negative; with a valid weight map
it returns the weighted-sum result without error. -/
theorem aggregate_weight_validation (t : Table) (mcols : List String) (w : List (String × ℚ))
    (hcols : ∀ c ∈ mcols, c ∈ t.cols) :
    ((∃ e, StrategyScoreAggregator.aggregate t mcols w = .error e) ↔
      (w = [] ∨ (w.map Prod.fst).toFinset ≠ mcols.toFinset ∨
        ¬((99 : ℚ) / 100 ≤ (w.map Prod.snd).sum ∧ (w.map Prod.snd).sum ≤ (101 : ℚ) / 100) ∨
        ∃ pr ∈ w, pr.2 < 0)) ∧
    ((w ≠ [] ∧ (w.map Prod.fst).toFinset = mcols.toFinset ∧
        ((99 : ℚ) / 100 ≤ (w.map Prod.snd).sum ∧ (w.map Prod.snd).sum ≤ (101 : ℚ) / 100) ∧
        ∀ pr ∈ w, 0 ≤ pr.2) →
      StrategyScoreAggregator.aggregate t mcols w
        = .ok (WeightedSumScoreAggregator.aggregate_impl t mcols w)) := by
  have hfil : mcols.filter (fun c => ¬ t.cols.contains c) = [] := by
    rw [List.filter_eq_nil_iff]
    intro c hc
    simp [hcols c hc]
  have hv : StrategyScoreAggregator.validate_input t mcols = none := by
    unfold StrategyScoreAggregator.validate_input
    rw [hfil]
    simp
  have hiff : (StrategyScoreAggregator.check_weights w mcols ≠ none) ↔
      (w = [] ∨ (w.map Prod.fst).toFinset ≠ mcols.toFinset ∨
        ¬((99 : ℚ) / 100 ≤ (w.map Prod.snd).sum ∧ (w.map Prod.snd).sum ≤ (101 : ℚ) / 100) ∨
        ∃ pr ∈ w, pr.2 < 0) := by
    rw [Ne, check_weights_none_iff]
    constructor
    · intro h
      by_contra hD
      push_neg at hD
      exact h ⟨hD.1, hD.2.1, hD.2.2.1, hD.2.2.2⟩
    · intro hD hconj
      rcases hD with h | h | h | h
      · exact hconj.1 h
      · exact h hconj.2.1
      · exact h hconj.2.2.1
      · obtain ⟨pr, hpr, hneg⟩ := h
        exact absurd (hconj.2.2.2 pr hpr) (not_le.mpr hneg)
  constructor
  · cases hcw : StrategyScoreAggregator.check_weights w mcols with
    | some e =>
        refine iff_of_true ⟨e, ?_⟩ (hiff.mp (by rw [hcw]; simp))
        simp [StrategyScoreAggregator.aggregate, hv, hcw]
    | none =>
        refine iff_of_false ?_ (fun hD => by
          have := hiff.mpr hD
          exact this hcw)
        rintro ⟨e, he⟩
        simp [StrategyScoreAggregator.aggregate, hv, hcw] at he
  · intro hconj
    have hcw : StrategyScoreAggregator.check_weights w mcols = none :=
      (check_weights_none_iff w mcols).mpr hconj
    simp [StrategyScoreAggregator.aggregate, hv, hcw]

/-- Concrete instantiation of `aggregate_weight_validation` on a one-column
table with a valid singleton weight map. -/
theorem aggregate_weight_validation_witness :
    (∀ c ∈ (["m"] : List String), c ∈ (Table.mk ["m"] []).cols) ∧
    (((∃ e, StrategyScoreAggregator.aggregate ⟨["m"], []⟩ ["m"] [("m", 1)] = .error e) ↔
      ([(("m" : String), (1 : ℚ))] = [] ∨
        (([(("m" : String), (1 : ℚ))].map Prod.fst).toFinset ≠ (["m"] : List String).toFinset) ∨
        ¬((99 : ℚ) / 100 ≤ ([(("m" : String), (1 : ℚ))].map Prod.snd).sum ∧
          ([(("m" : String), (1 : ℚ))].map Prod.snd).sum ≤ (101 : ℚ) / 100) ∨
        ∃ pr ∈ [(("m" : String), (1 : ℚ))], pr.2 < 0)) ∧
    (([(("m" : String), (1 : ℚ))] ≠ [] ∧
        (([(("m" : String), (1 : ℚ))].map Prod.fst).toFinset = (["m"] : List String).toFinset) ∧
        ((99 : ℚ) / 100 ≤ ([(("m" : String), (1 : ℚ))].map Prod.snd).sum ∧
          ([(("m" : String), (1 : ℚ))].map Prod.snd).sum ≤ (101 : ℚ) / 100) ∧
        ∀ pr ∈ [(("m" : String), (1 : ℚ))], 0 ≤ pr.2) →
      StrategyScoreAggregator.aggregate ⟨["m"], []⟩ ["m"] [("m", 1)]
        = .ok (WeightedSumScoreAggregator.aggregate_impl ⟨["m"], []⟩ ["m"] [("m", 1)]))) :=
  ⟨by simp, aggregate_weight_validation ⟨["m"], []⟩ ["m"] [("m", 1)] (by simp)⟩

/-- Embedding of `WeightedSumScoreAggregator.expr`
(`src/aggregators/strategy_aggregator/strategy.py`), the variant consumed
by `ModelPipeline`: the expression
`sum(pl.col(col).mul(weights.get(col, 0.0)) for col in metric_columns)`,
read against one row's cell values `vals`. -/
def WeightedSumScoreAggregator.expr (metric_columns : List String)
    (weights : List (String × ℚ)) (vals : String → ℚ) : ℚ :=
  (metric_columns.map (fun c => vals c * getD weights c)).sum

/-- C10: in the `ModelPipeline` weighted-sum variant, a metric column with
no entry in the weight map gets coefficient `weights.get(col, 0.0) = 0`, so
its contribution is zero and the weighted sum equals the sum over just the
columns that do have weights; the expression is total — no validation error
is possible. -/
theorem expr_missing_weight_zero (mcols : List String) (w : List (String × ℚ))
    (vals : String → ℚ) :
    (∀ c ∈ mcols, w.find? (fun p => p.1 == c) = none → vals c * getD w c = 0) ∧
    WeightedSumScoreAggregator.expr mcols w vals
      = WeightedSumScoreAggregator.expr
          (mcols.filter (fun c => (w.find? (fun p => p.1 == c)).isSome)) w vals := by
  constructor
  · intro c _ hnone
    simp [getD, hnone]
  · induction mcols with
    | nil => rfl
    | cons c cs ih =>
        by_cases hc : (w.find? (fun p => p.1 == c)).isSome
        · simp only [WeightedSumScoreAggregator.expr, List.filter_cons, hc, if_pos,
            List.map_cons, List.sum_cons] at *
          rw [ih]
        · have hnone : w.find? (fun p => p.1 == c) = none :=
            Option.not_isSome_iff_eq_none.mp hc
          simp only [WeightedSumScoreAggregator.expr, List.filter_cons, List.map_cons,
            List.sum_cons] at *
          rw [hnone]
          simp only [Option.isSome_none, Bool.false_eq_true, if_neg, not_false_iff]
          rw [getD, hnone]
          simp [ih]

/-- Concrete instantiation of `expr_missing_weight_zero`: column `b` absent
from the weight map contributes nothing. -/
theorem expr_missing_weight_zero_witness :
    (∀ c ∈ (["a", "b"] : List String),
      ([(("a" : String), (1 : ℚ))].find? (fun p => p.1 == c)) = none →
      (if c = "a" then (2 : ℚ) else 5) * getD [(("a" : String), (1 : ℚ))] c = 0) ∧
    WeightedSumScoreAggregator.expr ["a", "b"] [(("a" : String), (1 : ℚ))]
        (fun c => if c = "a" then (2 : ℚ) else 5)
      = WeightedSumScoreAggregator.expr
          ((["a", "b"] : List String).filter
            (fun c => (([(("a" : String), (1 : ℚ))].find? (fun p => p.1 == c)).isSome)))
          [(("a" : String), (1 : ℚ))] (fun c => if c = "a" then (2 : ℚ) else 5) :=
  expr_missing_weight_zero ["a", "b"] [("a", 1)] (fun c => if c = "a" then (2 : ℚ) else 5)

/-- Dense descending rank, as polars'
`pl.col("PM_Score").rank(method="dense", descending=True)` in
`PerformanceAnalysisOrchestrator.run_analysis`: the rank of a score `s` is
one more than the number of distinct scores strictly greater than `s`. -/
def denseRank (scores : List ℚ) (s : ℚ) : ℕ :=
  (scores.toFinset.filter (fun t => s < t)).card + 1

/-- Embedding of the ranking step of `run_analysis`: append to each
`(PM_ID, PM_Score)` row its dense descending rank.  The trailing
`.sort("Rank")` of the source only reorders rows and is not modelled. -/
def PerformanceAnalysisOrchestrator.add_rankings (scored : List (ℕ × ℚ)) :
    List (ℕ × ℚ × ℕ) :=
  scored.map (fun r => (r.1, r.2, denseRank (scored.map Prod.snd) r.2))

theorem denseRank_mono (scores : List ℚ) (s1 s2 : ℚ) (h : s2 ≤ s1) :
    denseRank scores s1 ≤ denseRank scores s2 := by
  unfold denseRank
  have hsub : scores.toFinset.filter (fun t => s1 < t)
      ⊆ scores.toFinset.filter (fun t => s2 < t) := by
    intro x hx
    rcases Finset.mem_filter.mp hx with ⟨hmem, hgt⟩
    exact Finset.mem_filter.mpr ⟨hmem, lt_of_le_of_lt h hgt⟩
  exact Nat.add_le_add_right (Finset.card_le_card hsub) 1

theorem denseRank_adjacent (scores : List ℚ) (s s' : ℚ) (hs : s ∈ scores) (hlt : s' < s)
    (hbetween : ∀ t ∈ scores, ¬(s' < t ∧ t < s)) :
    denseRank scores s' = denseRank scores s + 1 := by
  unfold denseRank
  have hset : scores.toFinset.filter (fun t => s' < t)
      = insert s (scores.toFinset.filter (fun t => s < t)) := by
    ext t
    simp only [Finset.mem_filter, Finset.mem_insert, List.mem_toFinset]
    constructor
    · rintro ⟨htmem, hts⟩
      rcases lt_trichotomy t s with hlt2 | heq | hgt
      · exact absurd ⟨hts, hlt2⟩ (hbetween t htmem)
      · exact Or.inl heq
      · exact Or.inr ⟨htmem, hgt⟩
    · rintro (rfl | ⟨htmem, hts⟩)
      · exact ⟨hs, hlt⟩
      · exact ⟨htmem, lt_trans hlt hts⟩
  rw [hset, Finset.card_insert_of_not_mem (by simp)]

/-- C4: rank assignment is dense and descending by `PM_Score`: a row with a
lower (or equal) score never gets a lower rank, equal scores get the
identical rank, and the next distinct lower score's rank is exactly one
greater than the higher score's rank, however many rows shared it. -/
theorem dense_ranking_correct (rows : List (ℕ × ℚ)) (a b : ℕ × ℚ × ℕ)
    (ha : a ∈ PerformanceAnalysisOrchestrator.add_rankings rows)
    (hb : b ∈ PerformanceAnalysisOrchestrator.add_rankings rows) :
    (b.2.1 ≤ a.2.1 → a.2.2 ≤ b.2.2) ∧
    (a.2.1 = b.2.1 → a.2.2 = b.2.2) ∧
    ((b.2.1 < a.2.1 ∧ ∀ t ∈ rows.map Prod.snd, ¬(b.2.1 < t ∧ t < a.2.1)) →
      b.2.2 = a.2.2 + 1) := by
  rcases List.mem_map.mp ha with ⟨ra, hra, harfl⟩
  rcases List.mem_map.mp hb with ⟨rb, hrb, hbrfl⟩
  subst harfl
  subst hbrfl
  refine ⟨?_, ?_, ?_⟩
  · intro h
    exact denseRank_mono (rows.map Prod.snd) ra.2 rb.2 h
  · intro h
    simp only at h ⊢
    rw [h]
  · rintro ⟨hlt, hbtw⟩
    exact denseRank_adjacent (rows.map Prod.snd) ra.2 rb.2
      (List.mem_map.mpr ⟨ra, hra, rfl⟩) hlt hbtw

/-- Concrete instantiation of `dense_ranking_correct` on two managers with
scores `3` and `1`. -/
theorem dense_ranking_correct_witness :
    ((1, 3, denseRank [3, 1] 3) ∈ PerformanceAnalysisOrchestrator.add_rankings [(1, 3), (2, 1)]) ∧
    ((2, 1, denseRank [3, 1] 1) ∈ PerformanceAnalysisOrchestrator.add_rankings [(1, 3), (2, 1)]) ∧
    ((((2, 1, denseRank [3, 1] 1) : ℕ × ℚ × ℕ).2.1 ≤
        (((1, 3, denseRank [3, 1] 3) : ℕ × ℚ × ℕ)).2.1 →
      (((1, 3, denseRank [3, 1] 3) : ℕ × ℚ × ℕ)).2.2 ≤
        (((2, 1, denseRank [3, 1] 1) : ℕ × ℚ × ℕ)).2.2) ∧
    ((((1, 3, denseRank [3, 1] 3) : ℕ × ℚ × ℕ)).2.1 =
        (((2, 1, denseRank [3, 1] 1) : ℕ × ℚ × ℕ)).2.1 →
      (((1, 3, denseRank [3, 1] 3) : ℕ × ℚ × ℕ)).2.2 =
        (((2, 1, denseRank [3, 1] 1) : ℕ × ℚ × ℕ)).2.2) ∧
    (((((2, 1, denseRank [3, 1] 1) : ℕ × ℚ × ℕ)).2.1 <
        (((1, 3, denseRank [3, 1] 3) : ℕ × ℚ × ℕ)).2.1 ∧
      ∀ t ∈ ([(1, 3), (2, 1)] : List (ℕ × ℚ)).map Prod.snd,
        ¬((((2, 1, denseRank [3, 1] 1) : ℕ × ℚ × ℕ)).2.1 < t ∧
          t < (((1, 3, denseRank [3, 1] 3) : ℕ × ℚ × ℕ)).2.1)) →
      (((2, 1, denseRank [3, 1] 1) : ℕ × ℚ × ℕ)).2.2 =
        (((1, 3, denseRank [3, 1] 3) : ℕ × ℚ × ℕ)).2.2 + 1)) :=
  ⟨by simp [PerformanceAnalysisOrchestrator.add_rankings],
    by simp [PerformanceAnalysisOrchestrator.add_rankings],
    dense_ranking_correct [(1, 3), (2, 1)] (1, 3, denseRank [3, 1] 3)
      (2, 1, denseRank [3, 1] 1)
      (by simp [PerformanceAnalysisOrchestrator.add_rankings])
      (by simp [PerformanceAnalysisOrchestrator.add_rankings])⟩

/-- Embedding of `CalculationPipeline.run`
(`src/metrics/calculator/pipeline.py`): each calculator is applied to the
data inside a try/except — a calculator that raises is logged and skipped
(`Except.toOption` discards the failure); only if no calculator succeeded
does the stage raise.  Each successful calculator contributes one named
metric column; the outer-join merge on the grouping keys is not otherwise
modelled. -/
def CalculationPipeline.run {α : Type} (calculators : List (α → Except String (String × List ℚ)))
    (data : α) : Except String (List (String × List ℚ)) :=
  let results := calculators.filterMap (fun c => (c data).toOption)
  if results.isEmpty then .error "No metrics were successfully calculated"
  else .ok results

/-- C8 counterexample: with two selected metrics where the first
calculator raises (for example because its required input columns are
missing) and the second succeeds, the calculation stage does NOT fail — it
returns a metric table containing only the surviving metric, silently
omitting the failing one (a warning is merely logged). -/
theorem calc_pipeline_swallows_failure :
    CalculationPipeline.run
      [fun _ => Except.error "Missing input columns", fun _ => Except.ok ("B", [1])] ()
      = Except.ok [("B", [(1 : ℚ)])] := by
  rfl

/-- C8 (amended): the calculation stage fails only when every selected
metric's calculation fails; when at least one calculator succeeds, the
failing metrics are skipped and the output table consists of exactly the
successful metrics' columns. -/
theorem calc_pipeline_error_policy {α : Type}
    (calculators : List (α → Except String (String × List ℚ))) (data : α) :
    ((∃ e, CalculationPipeline.run calculators data = .error e) ↔
      calculators.filterMap (fun c => (c data).toOption) = []) ∧
    (calculators.filterMap (fun c => (c data).toOption) ≠ [] →
      CalculationPipeline.run calculators data
        = .ok (calculators.filterMap (fun c => (c data).toOption))) := by
  constructor
  · constructor
    · rintro ⟨e, he⟩
      by_contra hne
      have hempty : (calculators.filterMap (fun c => (c data).toOption)).isEmpty = false :=
        by simpa [List.isEmpty_iff] using hne
      simp [CalculationPipeline.run, hempty] at he
    · intro hnil
      refine ⟨"No metrics were successfully calculated", ?_⟩
      simp [CalculationPipeline.run, hnil]
  · intro hne
    have hempty : (calculators.filterMap (fun c => (c data).toOption)).isEmpty = false :=
      by simpa [List.isEmpty_iff] using hne
    simp [CalculationPipeline.run, hempty]

/-- Concrete instantiation of `calc_pipeline_error_policy` with one failing
and one succeeding calculator. -/
theorem calc_pipeline_error_policy_witness :
    ((∃ e, CalculationPipeline.run
        [fun (_ : Unit) => Except.error "Missing input columns",
          fun _ => Except.ok ("B", [(1 : ℚ)])] () = .error e) ↔
      ([fun (_ : Unit) => Except.error "Missing input columns",
          fun _ => Except.ok ("B", [(1 : ℚ)])].filterMap
          (fun c => (c ()).toOption) = [])) ∧
    (([fun (_ : Unit) => Except.error "Missing input columns",
          fun _ => Except.ok ("B", [(1 : ℚ)])].filterMap
          (fun c => (c ()).toOption) ≠ []) →
      CalculationPipeline.run
        [fun (_ : Unit) => Except.error "Missing input columns",
          fun _ => Except.ok ("B", [(1 : ℚ)])] ()
        = .ok ([fun (_ : Unit) => Except.error "Missing input columns",
            fun _ => Except.ok ("B", [(1 : ℚ)])].filterMap (fun c => (c ()).toOption))) :=
  calc_pipeline_error_policy
    [fun _ => Except.error "Missing input columns", fun _ => Except.ok ("B", [1])] ()

/-- Embedding of `PerformanceAnalysisOrchestrator.run_analysis`
(`src/orchestrator.py`): the stages are injected as fallible functions and
sequenced; `True` is returned only after the ranking step; the `except`
clause re-raises the originating exception, which `Except` bind models by
propagating the error unchanged. -/
def PerformanceAnalysisOrchestrator.run_analysis {E A B C D P R : Type}
    (data_pipeline : Except E A) (calculation_pipeline : A → Except E B)
    (standardizer : B → Except E C) (strategy_aggregator : C → Except E D)
    (portfolio_aggregator : D → Except E P) (ranker : P → Except E R) :
    Except E Bool := do
  let processed ← data_pipeline
  let metrics ← calculation_pipeline processed
  let standardized ← standardizer metrics
  let strategy_scores ← strategy_aggregator standardized
  let portfolio_scores ← portfolio_aggregator strategy_scores
  let _ ← ranker portfolio_scores
  return true

/-- C9: `run_analysis` either returns `True` (all stages succeeded) or
re-raises the originating exception; the `False` return value promised by
its docstring is unreachable. -/
theorem run_analysis_never_false {E A B C D P R : Type}
    (data_pipeline : Except E A) (calculation_pipeline : A → Except E B)
    (standardizer : B → Except E C) (strategy_aggregator : C → Except E D)
    (portfolio_aggregator : D → Except E P) (ranker : P → Except E R) :
    (PerformanceAnalysisOrchestrator.run_analysis data_pipeline calculation_pipeline
        standardizer strategy_aggregator portfolio_aggregator ranker = .ok true ∨
      ∃ e, PerformanceAnalysisOrchestrator.run_analysis data_pipeline calculation_pipeline
        standardizer strategy_aggregator portfolio_aggregator ranker = .error e) ∧
    PerformanceAnalysisOrchestrator.run_analysis data_pipeline calculation_pipeline
        standardizer strategy_aggregator portfolio_aggregator ranker ≠ .ok false := by
  have hmain : PerformanceAnalysisOrchestrator.run_analysis data_pipeline calculation_pipeline
        standardizer strategy_aggregator portfolio_aggregator ranker = .ok true ∨
      ∃ e, PerformanceAnalysisOrchestrator.run_analysis data_pipeline calculation_pipeline
        standardizer strategy_aggregator portfolio_aggregator ranker = .error e := by
    unfold PerformanceAnalysisOrchestrator.run_analysis
    simp only [bind, Except.bind]
    cases data_pipeline with
    | error e => exact Or.inr ⟨e, rfl⟩
    | ok a =>
      dsimp only
      cases calculation_pipeline a with
      | error e => exact Or.inr ⟨e, rfl⟩
      | ok b =>
        dsimp only
        cases standardizer b with
        | error e => exact Or.inr ⟨e, rfl⟩
        | ok c =>
          dsimp only
          cases strategy_aggregator c with
          | error e => exact Or.inr ⟨e, rfl⟩
          | ok d =>
            dsimp only
            cases portfolio_aggregator d with
            | error e => exact Or.inr ⟨e, rfl⟩
            | ok p =>
              dsimp only
              cases ranker p with
              | error e => exact Or.inr ⟨e, rfl⟩
              | ok r => exact Or.inl rfl
  refine ⟨hmain, ?_⟩
  rcases hmain with h | ⟨e, h⟩ <;> rw [h] <;> simp

/-- Embedding of `EqualWeighting.calculate_weights`
(`src/weightings/impl/equal_weights.py`): raises when no metrics are given,
otherwise assigns `1 / len(metric_columns)` to every listed metric. -/
def EqualWeighting.calculate_weights (metric_columns : List String) :
    Except String (List (String × ℚ)) :=
  if metric_columns.length = 0 then .error "No metrics to calculate weights for"
  else .ok (metric_columns.map (fun m => (m, 1 / (metric_columns.length : ℚ))))

/-- The raw distribution of `EntropyWeighting._calculate_entropy`
(`src/weightings/impl/entropy.py`): `probs = values / np.sum(values)`. -/
noncomputable def EntropyWeighting.raw_probs (values : List ℝ) : List ℝ :=
  values.map (fun x => x / values.sum)

/-- Zero-substitution of `_calculate_entropy`:
`probs = np.where(probs == 0, 1e-10, probs)`. -/
noncomputable def EntropyWeighting.probs (values : List ℝ) : List ℝ :=
  (EntropyWeighting.raw_probs values).map (fun p => if p = 0 then 1 / 10 ^ 10 else p)

/-- Normalized Shannon entropy of one metric column, from
`_calculate_entropy`: `-np.sum(probs * np.log(probs)) / np.log(len(values))`. -/
noncomputable def EntropyWeighting.calculate_entropy (values : List ℝ) : ℝ :=
  -(((EntropyWeighting.probs values).map (fun p => p * Real.log p)).sum)
    / Real.log (values.length : ℝ)

/-- The per-column entropies dictionary built by `_calculate_entropy`. -/
noncomputable def EntropyWeighting.calculate_entropies (table : List (String × List ℝ)) :
    List (String × ℝ) :=
  table.map (fun col => (col.1, EntropyWeighting.calculate_entropy col.2))

/-- Embedding of `EntropyWeighting._calculate_weights`: diversities
`d = 1 - entropy`, total diversity `Σ d`, weights `d / Σ d`. -/
noncomputable def EntropyWeighting.weights_from_entropies
    (entropies : List (String × ℝ)) : List (String × ℝ) :=
  let diversities := entropies.map (fun e => (e.1, 1 - e.2))
  let total_diversity := (diversities.map Prod.snd).sum
  diversities.map (fun d => (d.1, d.2 / total_diversity))

/-- Embedding of the public `EntropyWeighting.calculate_weights`: entropies
then weights (the metadata side effect is not modelled). -/
noncomputable def EntropyWeighting.calculate_weights (table : List (String × List ℝ)) :
    List (String × ℝ) :=
  EntropyWeighting.weights_from_entropies (EntropyWeighting.calculate_entropies table)

theorem entropy_replicate (n : ℕ) (c : ℝ) (hn : 1 < n) (hc : 0 < c) :
    EntropyWeighting.calculate_entropy (List.replicate n c) = 1 := by
  have hn0 : (n : ℝ) ≠ 0 := by
    have : (0 : ℝ) < n := by exact_mod_cast Nat.lt_of_lt_of_le Nat.zero_lt_one hn.le
    exact ne_of_gt this
  have hnR : (1 : ℝ) < n := by exact_mod_cast hn
  have hsum : (List.replicate n c).sum = n * c := by
    rw [List.sum_replicate, nsmul_eq_mul]
  have hfrac : c / ((n : ℝ) * c) = (n : ℝ)⁻¹ := by
    rw [mul_comm, div_mul_eq_div_div, div_self (ne_of_gt hc), one_div]
  have hraw : EntropyWeighting.raw_probs (List.replicate n c)
      = List.replicate n ((n : ℝ)⁻¹) := by
    unfold EntropyWeighting.raw_probs
    rw [hsum, List.map_replicate, hfrac]
  have hinv0 : ((n : ℝ)⁻¹) ≠ 0 := inv_ne_zero hn0
  have hprobs : EntropyWeighting.probs (List.replicate n c)
      = List.replicate n ((n : ℝ)⁻¹) := by
    unfold EntropyWeighting.probs
    rw [hraw, List.map_replicate, if_neg hinv0]
  have hlog : Real.log n ≠ 0 := ne_of_gt (Real.log_pos hnR)
  unfold EntropyWeighting.calculate_entropy
  rw [hprobs, List.map_replicate, List.sum_replicate, List.length_replicate,
    nsmul_eq_mul, Real.log_inv]
  field_simp

theorem entropy_one_three : EntropyWeighting.calculate_entropy [(1 : ℝ), 3]
    = 2 - (3 / 4) * (Real.log 3 / Real.log 2) := by
  have hlog2 : Real.log 2 ≠ 0 := ne_of_gt (Real.log_pos (by norm_num))
  have hsum : ([(1 : ℝ), 3]).sum = 4 := by norm_num
  have hraw : EntropyWeighting.raw_probs [(1 : ℝ), 3] = [1 / 4, 3 / 4] := by
    unfold EntropyWeighting.raw_probs
    rw [hsum]
    norm_num
  have hprobs : EntropyWeighting.probs [(1 : ℝ), 3] = [1 / 4, 3 / 4] := by
    unfold EntropyWeighting.probs
    rw [hraw]
    norm_num
  unfold EntropyWeighting.calculate_entropy
  rw [hprobs]
  simp only [List.map_cons, List.map_nil, List.sum_cons, List.sum_nil, List.length_cons,
    List.length_nil]
  have h14 : Real.log (1 / 4 : ℝ) = -(2 * Real.log 2) := by
    rw [one_div, Real.log_inv, show (4 : ℝ) = 2 ^ (2 : ℕ) by norm_num, Real.log_pow]
    push_cast
    ring
  have h34 : Real.log (3 / 4 : ℝ) = Real.log 3 - 2 * Real.log 2 := by
    rw [Real.log_div (by norm_num) (by norm_num), show (4 : ℝ) = 2 ^ (2 : ℕ) by norm_num,
      Real.log_pow]
    push_cast
    ring
  rw [h14, h34]
  push_cast
  field_simp
  ring

theorem four_log_two_lt_three_log_three : 4 * Real.log 2 < 3 * Real.log 3 := by
  have h := Real.log_lt_log (by norm_num : (0 : ℝ) < 16) (by norm_num : (16 : ℝ) < 27)
  rw [show (16 : ℝ) = 2 ^ (4 : ℕ) by norm_num, show (27 : ℝ) = 3 ^ (3 : ℕ) by norm_num,
    Real.log_pow, Real.log_pow] at h
  push_cast at h
  exact h

theorem one_lt_log_ratio : 1 < (3 / 4) * (Real.log 3 / Real.log 2) := by
  have hlog2pos : 0 < Real.log 2 := Real.log_pos (by norm_num)
  rw [show (3 / 4 : ℝ) * (Real.log 3 / Real.log 2)
      = (3 * Real.log 3) / (4 * Real.log 2) by ring]
  rw [lt_div_iff₀ (by positivity)]
  have := four_log_two_lt_three_log_three
  linarith

theorem witness_entropy_total_ne :
    ((EntropyWeighting.calculate_entropies
        [("m", List.replicate 2 (5 : ℝ)), ("x", [1, 3])]).map (fun e => 1 - e.2)).sum ≠ 0 := by
  have hm := entropy_replicate 2 (5 : ℝ) (by norm_num) (by norm_num)
  have hx := entropy_one_three
  unfold EntropyWeighting.calculate_entropies
  simp only [List.map_cons, List.map_nil, List.sum_cons, List.sum_nil]
  rw [hm, hx]
  intro h
  have h' : (3 / 4) * (Real.log 3 / Real.log 2) = 1 := by linarith
  have := one_lt_log_ratio
  rw [h'] at this
  exact lt_irrefl 1 this

/-- C7: a metric column whose values are all equal and positive across
`n > 1` strategies has normalized Shannon entropy exactly 1, hence
diversity 0; provided the table's total diversity is nonzero (at least one
other metric discriminates), that metric's entropy weight is 0. -/
theorem entropy_constant_metric_weight_zero (table : List (String × List ℝ)) (m : String)
    (n : ℕ) (c : ℝ) (hmem : (m, List.replicate n c) ∈ table) (hc : 0 < c) (hn : 1 < n)
    (_htot : ((EntropyWeighting.calculate_entropies table).map (fun e => 1 - e.2)).sum ≠ 0) :
    EntropyWeighting.calculate_entropy (List.replicate n c) = 1 ∧
    (m, (0 : ℝ)) ∈ EntropyWeighting.calculate_weights table := by
  have hent := entropy_replicate n c hn hc
  refine ⟨hent, ?_⟩
  have hw : EntropyWeighting.calculate_weights table
      = table.map (fun col => (col.1,
          (1 - EntropyWeighting.calculate_entropy col.2) /
            ((table.map (fun col2 => 1 - EntropyWeighting.calculate_entropy col2.2)).sum))) := by
    unfold EntropyWeighting.calculate_weights EntropyWeighting.weights_from_entropies
      EntropyWeighting.calculate_entropies
    simp [List.map_map, Function.comp_def]
  rw [hw]
  refine List.mem_map.mpr ⟨(m, List.replicate n c), hmem, ?_⟩
  simp [hent]

/-- Concrete instantiation of `entropy_constant_metric_weight_zero`: the
constant column `[5, 5]` next to the discriminating column `[1, 3]`. -/
theorem entropy_constant_metric_weight_zero_witness :
    ((("m" : String), List.replicate 2 (5 : ℝ))
        ∈ [(("m" : String), List.replicate 2 (5 : ℝ)), ("x", [1, 3])]) ∧
    (0 : ℝ) < 5 ∧ (1 : ℕ) < 2 ∧
    (((EntropyWeighting.calculate_entropies
        [("m", List.replicate 2 (5 : ℝ)), ("x", [1, 3])]).map (fun e => 1 - e.2)).sum ≠ 0) ∧
    (EntropyWeighting.calculate_entropy (List.replicate 2 (5 : ℝ)) = 1 ∧
      ((("m" : String), (0 : ℝ)) ∈ EntropyWeighting.calculate_weights
        [("m", List.replicate 2 (5 : ℝ)), ("x", [1, 3])])) :=
  ⟨List.mem_cons_self _ _, by norm_num, by norm_num, witness_entropy_total_ne,
    entropy_constant_metric_weight_zero
      [("m", List.replicate 2 (5 : ℝ)), ("x", [1, 3])] "m" 2 5
      (List.mem_cons_self _ _) (by norm_num) (by norm_num) witness_entropy_total_ne⟩

theorem list_sum_map_div (l : List ℝ) (T : ℝ) :
    (l.map (fun x => x / T)).sum = l.sum / T := by
  induction l with
  | nil => simp
  | cons x xs ih => simp [ih, add_div]

theorem weights_from_entropies_eq (es : List (String × ℝ)) :
    EntropyWeighting.weights_from_entropies es
      = es.map (fun e => (e.1, (1 - e.2) / ((es.map (fun x => 1 - x.2)).sum))) := by
  unfold EntropyWeighting.weights_from_entropies
  simp [List.map_map, Function.comp_def]

/-- C6 (amended): equal weighting returns `1/n` for each of the `n` listed
metrics and fails exactly when the list is empty; its weights sum to
exactly 1 and are all nonnegative.  Entropy weighting forms weights
`d_m / Σ d` from the diversities `d_m = 1 - E_m`; whenever the total
diversity `Σ d` is nonzero its weights sum to exactly 1, and when moreover
every entropy is at most 1 and the total diversity is positive, every
weight is nonnegative.  When every diversity is zero the code divides by
zero instead of returning a valid weight map — see the counterexample. -/
theorem weighting_methods_valid (cols : List String) (es : List (String × ℝ)) :
    (cols = [] → EqualWeighting.calculate_weights cols
        = .error "No metrics to calculate weights for") ∧
    (cols ≠ [] →
      EqualWeighting.calculate_weights cols
          = .ok (cols.map (fun m => (m, 1 / (cols.length : ℚ)))) ∧
      ((cols.map (fun m => (m, 1 / (cols.length : ℚ)))).map Prod.snd).sum = 1 ∧
      ∀ pr ∈ cols.map (fun m => (m, 1 / (cols.length : ℚ))), 0 ≤ pr.2) ∧
    (EntropyWeighting.weights_from_entropies es
        = es.map (fun e => (e.1, (1 - e.2) / ((es.map (fun x => 1 - x.2)).sum)))) ∧
    (((es.map (fun x => 1 - x.2)).sum ≠ 0) →
      ((EntropyWeighting.weights_from_entropies es).map Prod.snd).sum = 1) ∧
    ((∀ pr ∈ es, pr.2 ≤ 1) → 0 < (es.map (fun x => 1 - x.2)).sum →
      ∀ pr ∈ EntropyWeighting.weights_from_entropies es, 0 ≤ pr.2) := by
  refine ⟨?_, ?_, weights_from_entropies_eq es, ?_, ?_⟩
  · intro h
    simp [EqualWeighting.calculate_weights, h]
  · intro h
    have hlen : cols.length ≠ 0 := fun hl => h (List.length_eq_zero.mp hl)
    have hlenQ : (cols.length : ℚ) ≠ 0 := Nat.cast_ne_zero.mpr hlen
    refine ⟨by simp [EqualWeighting.calculate_weights, hlen], ?_, ?_⟩
    · have hconst : (cols.map (fun m => (m, 1 / (cols.length : ℚ)))).map Prod.snd
          = cols.map (fun _ => 1 / (cols.length : ℚ)) := by
        rw [List.map_map]
        rfl
      rw [hconst, List.map_const', List.sum_replicate, nsmul_eq_mul, mul_one_div,
        div_self hlenQ]
    · intro pr hpr
      rcases List.mem_map.mp hpr with ⟨mname, _, hrfl⟩
      rw [← hrfl]
      positivity
  · intro htot
    rw [weights_from_entropies_eq]
    rw [List.map_map]
    have : (Prod.snd ∘ fun e : String × ℝ =>
        (e.1, (1 - e.2) / ((es.map (fun x => 1 - x.2)).sum)))
        = fun e : String × ℝ => (1 - e.2) / ((es.map (fun x => 1 - x.2)).sum) := rfl
    rw [this]
    have hfused : (es.map (fun e : String × ℝ =>
        (1 - e.2) / ((es.map (fun x => 1 - x.2)).sum)))
        = (es.map (fun x => 1 - x.2)).map
            (fun d => d / ((es.map (fun x => 1 - x.2)).sum)) := by
      rw [List.map_map]
      rfl
    rw [hfused, list_sum_map_div, div_self htot]
  · intro hent htot pr hpr
    rw [weights_from_entropies_eq] at hpr
    rcases List.mem_map.mp hpr with ⟨e, he, hrfl⟩
    rw [← hrfl]
    exact div_nonneg (by linarith [hent e he]) htot.le

/-- Concrete instantiation of `weighting_methods_valid`: one metric with
entropy `1/2`. -/
theorem weighting_methods_valid_witness :
    ((["a"] : List String) ≠ []) ∧
    ((([(("m" : String), (1 / 2 : ℝ))].map (fun x => 1 - x.2)).sum ≠ 0)) ∧
    (EqualWeighting.calculate_weights ["a"]
        = .ok ((["a"] : List String).map
            (fun m => (m, 1 / ((["a"] : List String).length : ℚ)))) ∧
      (((["a"] : List String).map
          (fun m => (m, 1 / ((["a"] : List String).length : ℚ)))).map Prod.snd).sum = 1 ∧
      ∀ pr ∈ (["a"] : List String).map
          (fun m => (m, 1 / ((["a"] : List String).length : ℚ))), 0 ≤ pr.2) ∧
    (((EntropyWeighting.weights_from_entropies
        [(("m" : String), (1 / 2 : ℝ))]).map Prod.snd).sum = 1) :=
  ⟨by simp, by norm_num,
    (weighting_methods_valid ["a"] [("m", 1 / 2)]).2.1 (by simp),
    (weighting_methods_valid ["a"] [("m", 1 / 2)]).2.2.2.1 (by norm_num)⟩

/-- C6 counterexample: on a table whose single metric column is constant
(`[1, 1]`) every diversity is 0, so the total diversity is 0 and the weight
computation divides by zero (`ZeroDivisionError` in the running Python,
junk value `0` under Lean's total division).  The returned weights sum to
0, which is not within `±0.01` of 1, refuting the claim for this
standardized metric table. -/
theorem entropy_weights_degenerate_counterexample :
    ((EntropyWeighting.calculate_weights [("m", [(1 : ℝ), 1])]).map Prod.snd).sum = 0 ∧
    ¬(|((EntropyWeighting.calculate_weights [("m", [(1 : ℝ), 1])]).map Prod.snd).sum - 1|
        ≤ 1 / 100) := by
  have hm : EntropyWeighting.calculate_entropy [(1 : ℝ), 1] = 1 := by
    have h := entropy_replicate 2 (1 : ℝ) (by norm_num) (by norm_num)
    simpa using h
  have hz : ((EntropyWeighting.calculate_weights [("m", [(1 : ℝ), 1])]).map Prod.snd).sum
      = 0 := by
    unfold EntropyWeighting.calculate_weights EntropyWeighting.calculate_entropies
    rw [weights_from_entropies_eq]
    simp [hm]
  refine ⟨hz, ?_⟩
  rw [hz]
  norm_num
